import Mathlib

/-!
# Verification of the csv-to-json-api core pipeline

Shallow embedding of the repository's core components:

* `splitIntoLines`, `parseLine`, `parseCSVContent` — the hand-built CSV
  tokenizer and record assembler (`csvParser.js`).
* `buildNestedObject`, `setNestedProperty`, `separateMandatoryFields` — the
  dot-path expansion and mandatory-field separation (`objectBuilder.js`).
* `batchInsertUsers`, `optimizedBatchInsert` — the two persistence
  strategies (`userService.js`), with the storage engine abstracted as an
  oracle assigning an outcome to each insert attempt.
* `calculate` — the age-distribution reporter (`ageDistribution.js`).

Strings manipulated character-by-character by the source are modelled as
`List Char`; JavaScript objects are modelled as insertion-ordered
association lists with JS assignment semantics (update-in-place for an
existing key, append for a new one).
-/

/-- JS whitespace recognised by `String.prototype.trim` (common subset:
space, tab, LF, CR, VT, FF; the exotic Unicode space code points never
arise in the inputs considered here). -/
def isJsSpace (c : Char) : Bool :=
  c = ' ' ∨ c = '\t' ∨ c = '\n' ∨ c = '\r' ∨ c = '\x0b' ∨ c = '\x0c'

/-- `s.trim()` on a character list: strip leading and trailing whitespace. -/
def trimL (cs : List Char) : List Char :=
  ((cs.dropWhile isJsSpace).reverse.dropWhile isJsSpace).reverse

/-- `CSVParser.splitIntoLines`: `content.split(/\r?\n|\r/)`.  A `\r\n` pair
is one separator, otherwise a lone `\n` or `\r` separates.  As in
JavaScript, the result always has at least one element: splitting the
empty string yields `[[]]`, not `[]`. -/
def splitIntoLines : List Char → List (List Char) :=
  go []
where
  go (acc : List Char) : List Char → List (List Char)
    | [] => [acc.reverse]
    | '\r' :: '\n' :: rest => acc.reverse :: go [] rest
    | '\r' :: rest => acc.reverse :: go [] rest
    | '\n' :: rest => acc.reverse :: go [] rest
    | c :: rest => go (c :: acc) rest

/-- The scanning loop of `CSVParser.parseLine`: one left-to-right pass with
accumulator `acc` (reversed) and the boolean state `insideQuotes`.
On `"` inside quotes followed by another `"`, one literal `"` is emitted
and both characters are consumed; otherwise `"` toggles the state.  A `,`
outside quotes closes the current field.  At end of input the accumulator
is pushed as the final field regardless of the quote state. -/
def parseLineAux : List Char → List Char → Bool → List (List Char)
  | [], acc, _ => [acc.reverse]
  | '"' :: '"' :: rest, acc, true => parseLineAux rest ('"' :: acc) true
  | '"' :: rest, acc, inside => parseLineAux rest acc (!inside)
  | ',' :: rest, acc, false => acc.reverse :: parseLineAux rest [] false
  | c :: rest, acc, inside => parseLineAux rest (c :: acc) inside

/-- `CSVParser.parseLine`: tokenize one already-split line into fields. -/
def parseLine (line : List Char) : List (List Char) :=
  parseLineAux line [] false

/-- A FlatRecord: insertion-ordered association list from flat key to
string value, both as character lists. -/
abbrev FlatRecordL := List (List Char × List Char)

/-- JS object property read `obj[key]`. -/
def objGet {α : Type} [DecidableEq α] {β : Type} : List (α × β) → α → Option β
  | [], _ => none
  | (k, v) :: rest, key => if k = key then some v else objGet rest key

/-- JS object property assignment `obj[key] = v`: update in place when the
key exists (keeping its position in insertion order), append otherwise. -/
def objSet {α : Type} [DecidableEq α] {β : Type} : List (α × β) → α → β → List (α × β)
  | [], key, v => [(key, v)]
  | (k, w) :: rest, key, v =>
    if k = key then (k, v) :: rest else (k, w) :: objSet rest key v

/-- The record-building inner loop of `parseCSVContent`:
`record[headers[j].trim()] = values[j].trim()` for each column `j`. -/
def buildRecord (headers values : List (List Char)) : FlatRecordL :=
  (headers.zip values).foldl (fun r hv => objSet r (trimL hv.1) (trimL hv.2)) []

/-- The data-row loop of `parseCSVContent` (lines after the header): trim
each line, skip it when empty, tokenize it, skip it when the field count
differs from the header's, otherwise emit the zipped record. -/
def processRows (headers : List (List Char)) : List (List Char) → List FlatRecordL
  | [] => []
  | line :: rest =>
    let l := trimL line
    if l = [] then processRows headers rest
    else
      let values := parseLine l
      if values.length ≠ headers.length then processRows headers rest
      else buildRecord headers values :: processRows headers rest

/-- `CSVParser.parseCSVContent`: split into lines, fail when there are zero
lines, take the first line as the header (untrimmed), process the rest. -/
def parseCSVContent (csvContent : List Char) : Except String (List FlatRecordL) :=
  match splitIntoLines csvContent with
  | [] => .error "CSV file is empty"
  | h :: rest => .ok (processRows (parseLine h) rest)

/-- `parseCSVContent` on a `String` input (the file content). -/
def parseCSVContentS (s : String) : Except String (List FlatRecordL) :=
  parseCSVContent s.data

/-- Sanity: a plain two-field line tokenizes to its fields. -/
lemma parseLine_plain_example : parseLine "a,b".data = ["a".data, "b".data] := by
  decide

/-- Sanity: a quoted field with an embedded comma and an escaped quote
tokenizes to the single field the spec names. -/
lemma parseLine_quoted_example :
    parseLine "\x22a,\x22\x22b\x22\x22\x22".data = ["a,\x22b\x22".data] := by
  decide

/-! ## Object builder (`objectBuilder.js`) -/

/-- A JavaScript value as it occurs in the nested records: either a string
(every CSV cell value is a string) or an object, modelled as an
insertion-ordered association list. -/
inductive JsonVal : Type where
  | str : String → JsonVal
  | obj : List (String × JsonVal) → JsonVal

/-- A nested record: the top-level JS object. -/
abbrev JObj := List (String × JsonVal)

/-- JS truthiness on the values that occur here: the empty string is falsy,
every other string and every object is truthy. -/
def jsFalsy : JsonVal → Bool
  | .str s => s = ""
  | .obj _ => false

/-- JS string coercion (template-literal interpolation) on these values. -/
def jsToString : JsonVal → String
  | .str s => s
  | .obj _ => "[object Object]"

/-- `s.trim()` on a `String`. -/
def jsTrimS (s : String) : String := String.mk (trimL s.data)

/-- The walk of `ObjectBuilder.setNestedProperty`, on the list of `.`-split
path segments: for every segment but the last, descend into the existing
object at that key, replacing it by a fresh empty object when the key is
absent or holds a non-object (`!current[key] || typeof current[key] !==
'object'`); assign the value at the final segment. -/
def setNestedSegs : JObj → List String → String → JObj
  | m, [], _ => m
  | m, [k], value => objSet m k (.str value)
  | m, k :: ks, value =>
    let sub : JObj :=
      match objGet m k with
      | some (.obj sm) => sm
      | _ => []
    objSet m k (.obj (setNestedSegs sub ks value))

/-- `path.split('.')`: split a string on the dot character; splitting the
empty string yields `[""]`, as in JavaScript. -/
def splitDots (s : String) : List String :=
  go [] s.data
where
  go (acc : List Char) : List Char → List String
    | [] => [String.mk acc.reverse]
    | '.' :: rest => String.mk acc.reverse :: go [] rest
    | c :: rest => go (c :: acc) rest

/-- `ObjectBuilder.setNestedProperty obj path value`:
split the dot-notation path and walk/assign. -/
def setNestedProperty (o : JObj) (path : String) (value : String) : JObj :=
  setNestedSegs o (splitDots path) value

/-- `ObjectBuilder.buildNestedObject`: fold `setNestedProperty` over the
flat record's entries in iteration order, starting from `{}`. -/
def buildNestedObject (flatObject : List (String × String)) : JObj :=
  flatObject.foldl (fun result kv => setNestedProperty result kv.1 kv.2) []

/-- Digit value of a character in the given radix (10 or 16), as used by
`parseInt`. -/
def digitValIn (radix : Nat) (c : Char) : Option Nat :=
  if '0' ≤ c ∧ c ≤ '9' then some (c.toNat - 48)
  else if radix = 16 ∧ 'a' ≤ c ∧ c ≤ 'f' then some (c.toNat - 87)
  else if radix = 16 ∧ 'A' ≤ c ∧ c ≤ 'F' then some (c.toNat - 55)
  else none

/-- JavaScript `parseInt(s)` with no explicit radix: skip leading
whitespace, read an optional sign, switch to radix 16 after a `0x`/`0X`
prefix, then parse the longest leading run of digits; `none` models `NaN`
(no digits at all).  Trailing non-digit characters are ignored. -/
def jsParseIntL (cs0 : List Char) : Option Int :=
  let cs1 := cs0.dropWhile isJsSpace
  let sgn : Int × List Char :=
    match cs1 with
    | '-' :: r => (-1, r)
    | '+' :: r => (1, r)
    | _ => (1, cs1)
  let rad : Nat × List Char :=
    match sgn.2 with
    | '0' :: 'x' :: r => (16, r)
    | '0' :: 'X' :: r => (16, r)
    | _ => (10, sgn.2)
  let ds := rad.2.takeWhile (fun c => (digitValIn rad.1 c).isSome)
  if ds = [] then none
  else some (sgn.1 * (ds.foldl (fun acc c => acc * rad.1 + ((digitValIn rad.1 c).getD 0)) 0))

/-- `parseInt` on a `String`. -/
def jsParseInt (s : String) : Option Int := jsParseIntL s.data

/-- `nestedObject.name?.firstName || ''` (and likewise for `lastName`):
optional-chained read of a sub-property of `name`, with falsy results
replaced by the empty string.  A string-valued `name` has no such
property (yielding `undefined`, hence `''`). -/
def getNameField (nested : JObj) (field : String) : JsonVal :=
  match objGet nested "name" with
  | some (.obj nm) =>
    match objGet nm field with
    | some v => if jsFalsy v then .str "" else v
    | none => .str ""
  | _ => .str ""

/-- `parseInt(nestedObject.age) || 0`: `parseInt` of a non-string (absent
key or object) is `NaN`, and `NaN || 0` is `0`; a parse result of `0` is
falsy but `0 || 0` is again `0`, so the parsed integer is returned
whenever one exists. -/
def getAge (nested : JObj) : Int :=
  match objGet nested "age" with
  | some (.str s) =>
    match jsParseInt s with
    | some n => n
    | none => 0
  | _ => 0

/-- `nestedObject.address || null`: the `address` value when present and
truthy, else `null` (modelled as `none`). -/
def getAddress (nested : JObj) : Option JsonVal :=
  match objGet nested "address" with
  | some v => if jsFalsy v then none else some v
  | none => none

/-- The database-ready record produced by the field separator. -/
structure PersistableUser : Type where
  name : String
  age : Int
  address : Option JsonVal
  additional_info : Option JsonVal

/-- `ObjectBuilder.separateMandatoryFields`: extract the mandatory fields,
join and trim the full name, and collect every remaining top-level entry
(in iteration order) into `additional_info`, which becomes `null` when
that collection is empty.  The loop `additionalInfo[key] = value` over the
entries of `nestedObject` is a filter, since a JS object's keys are
unique. -/
def separateMandatoryFields (nestedObject : JObj) : PersistableUser :=
  let firstName := getNameField nestedObject "firstName"
  let lastName := getNameField nestedObject "lastName"
  let fullName := jsTrimS (jsToString firstName ++ " " ++ jsToString lastName)
  let additionalInfo :=
    nestedObject.filter (fun kv => kv.1 ≠ "name" ∧ kv.1 ≠ "age" ∧ kv.1 ≠ "address")
  { name := fullName
    age := getAge nestedObject
    address := getAddress nestedObject
    additional_info :=
      if additionalInfo.length > 0 then some (.obj additionalInfo) else none }

/-- `ObjectBuilder.processRecords`: nested building followed by field
separation, for each flat record. -/
def processRecords (records : List (List (String × String))) : List PersistableUser :=
  records.map (fun record => separateMandatoryFields (buildNestedObject record))



/-! ## Batch persistence engine (`userService.js`)

The storage engine is an external collaborator; each insert attempt is
given an outcome by an oracle.  For the row-by-row path the oracle maps
the attempt index and the user to `none` (the `INSERT` succeeds) or
`some msg` (the `INSERT` throws with message `msg`).  For the bulk path
the oracle maps the chunk index and the chunk to the reported row count or
to an error.  A call's durable effect is the list of rows committed by it:
everything the engine accepted when `COMMIT` runs, nothing when the
transaction is rolled back. -/

/-- One entry of the per-row `errors` list: `{user: user.name, error:
error.message}`. -/
structure RowError : Type where
  user : String
  error : String

/-- The statistics object returned by both persistence strategies:
`{success: true, inserted, failed, errors}`, where `errors` is `null`
unless the per-row list is non-empty. -/
structure BatchResult : Type where
  success : Bool
  inserted : Nat
  failed : Nat
  errors : Option (List RowError)

/-- Outcome of one persistence call: the value returned (or the error
thrown), together with the rows durably committed by the call. -/
structure TxnOutcome : Type where
  result : Except String BatchResult
  committed : List PersistableUser

/-- The `for (const user of users)` loop of `batchInsertUsers`, at attempt
index `i`: each row's `INSERT` runs inside the per-row `try`; a success
increments `insertedCount`, a failure is caught locally, increments
`failedCount` and appends `{user: user.name, error: message}`, and the
loop continues either way.  Returns
`(insertedCount, failedCount, errors, rows the engine accepted)`. -/
def batchInsertLoop (oracle : Nat → PersistableUser → Option String) :
    Nat → List PersistableUser → Nat × Nat × List RowError × List PersistableUser
  | _, [] => (0, 0, [], [])
  | i, user :: rest =>
    let r := batchInsertLoop oracle (i + 1) rest
    match oracle i user with
    | none => (r.1 + 1, r.2.1, r.2.2.1, user :: r.2.2.2)
    | some msg => (r.1, r.2.1 + 1, ⟨user.name, msg⟩ :: r.2.2.1, r.2.2.2)

/-- `UserService.batchInsertUsers`: one transaction for the whole call;
rows inserted one at a time, per-row failures caught locally; a single
`COMMIT` at the end makes every accepted row durable, and the call
returns `{success: true, inserted, failed, errors: errors.length > 0 ?
errors : null}`.  (The outer catch-all rollback fires only when the
transaction itself becomes unusable, an engine behaviour outside the
per-row oracle model.) -/
def batchInsertUsers (oracle : Nat → PersistableUser → Option String)
    (users : List PersistableUser) : TxnOutcome :=
  let r := batchInsertLoop oracle 0 users
  { result := .ok
      { success := true
        inserted := r.1
        failed := r.2.1
        errors := if r.2.2.1.length > 0 then some r.2.2.1 else none }
    committed := r.2.2.2 }

/-- The chunking of `optimizedBatchInsert`:
`for (let i = 0; i < users.length; i += 1000) users.slice(i, i + 1000)`. -/
def chunksOf1000 {α : Type} : List α → List (List α)
  | [] => []
  | x :: xs =>
    (x :: xs).take 1000 :: chunksOf1000 ((x :: xs).drop 1000)
termination_by l => l.length
decreasing_by simp [List.length_drop]; omega

/-- The chunk loop of `optimizedBatchInsert`, at chunk index `i`: each
chunk is handed to the engine as one set-based `UNNEST` insert; the
reported row counts accumulate into `totalInserted`; the first error
escapes the loop (there is no per-chunk catch). -/
def runChunks (oracle : Nat → List PersistableUser → Except String Nat) :
    Nat → List (List PersistableUser) → Except String Nat
  | _, [] => .ok 0
  | i, c :: rest =>
    match oracle i c with
    | .error e => .error e
    | .ok n =>
      match runChunks oracle (i + 1) rest with
      | .error e => .error e
      | .ok m => .ok (n + m)

/-- `UserService.optimizedBatchInsert`: all chunks execute inside a single
transaction; on success it commits once and returns `{success: true,
inserted: totalInserted, failed: 0, errors: null}` with every chunk's rows
durable; any error rolls the whole transaction back (zero rows committed)
and the call throws. -/
def optimizedBatchInsert (oracle : Nat → List PersistableUser → Except String Nat)
    (users : List PersistableUser) : TxnOutcome :=
  match runChunks oracle 0 (chunksOf1000 users) with
  | .error e =>
    { result := .error ("Optimized batch insert failed: " ++ e), committed := [] }
  | .ok n =>
    { result := .ok { success := true, inserted := n, failed := 0, errors := none }
      committed := (chunksOf1000 users).flatten }

/-! ## Age distribution reporter (`ageDistribution.js`) -/

/-- The four bucket counters, in the key order of the source's
`distribution` object: `'<20'`, `'20-40'`, `'40-60'`, `'>60'`. -/
structure Buckets : Type where
  lt20 : Nat
  from20to40 : Nat
  from40to60 : Nat
  gt60 : Nat
deriving DecidableEq

/-- The if/else-if cascade of `AgeDistribution.calculate`, returning the
key of the bucket the cascade increments for a parsed age. -/
def bucketOf (age : Int) : String :=
  if age < 20 then "<20"
  else if 20 ≤ age ∧ age < 40 then "20-40"
  else if 40 ≤ age ∧ age ≤ 60 then "40-60"
  else ">60"

/-- Increment the counter for a bucket key. -/
def incrBucket (b : Buckets) (key : String) : Buckets :=
  if key = "<20" then { b with lt20 := b.lt20 + 1 }
  else if key = "20-40" then { b with from20to40 := b.from20to40 + 1 }
  else if key = "40-60" then { b with from40to60 := b.from40to60 + 1 }
  else { b with gt60 := b.gt60 + 1 }

/-- The body of the `users.forEach` loop: parse the age; when it is `NaN`,
warn and return without touching any bucket; otherwise increment the
bucket selected by the cascade. -/
def tallyStep (b : Buckets) (ageStr : String) : Buckets :=
  match jsParseInt ageStr with
  | none => b
  | some age => incrBucket b (bucketOf age)

/-- The bucket counts accumulated over the whole user list. -/
def tally (users : List String) : Buckets :=
  users.foldl tallyStep ⟨0, 0, 0, 0⟩

/-- One percentage entry `((count / total) * 100).toFixed(2)`.  The source
formats the value as a fixed-two-decimal string computed in binary
floating point; the model keeps the exact rational `count * 100 / total`,
which preserves what the claims here concern: which count is the
numerator and which total is the denominator. -/
def pctOf (count total : Nat) : ℚ := (count * 100 : ℚ) / total

/-- The four percentage entries, in bucket key order. -/
structure Pcts : Type where
  lt20 : ℚ
  from20to40 : ℚ
  from40to60 : ℚ
  gt60 : ℚ
deriving DecidableEq

/-- The value returned by `AgeDistribution.calculate`: the zero-user early
return yields the bare `distribution` object (`flatBuckets`), every other
input yields the `{counts, percentages, total}` wrapper (`report`). -/
inductive CalcResult : Type where
  | flatBuckets : Buckets → CalcResult
  | report : Buckets → Pcts → Nat → CalcResult
deriving DecidableEq

/-- `AgeDistribution.calculate`, over the users' `age` attributes (as the
strings `parseInt` receives): `total` is `users.length`, computed before
the loop; with zero users the bare zeroed `distribution` object is
returned directly; otherwise the loop tallies the parseable ages and each
percentage is formed with `total` as the denominator. -/
def calculate (users : List String) : CalcResult :=
  let total := users.length
  if total = 0 then .flatBuckets ⟨0, 0, 0, 0⟩
  else
    let d := tally users
    .report d
      ⟨pctOf d.lt20 total, pctOf d.from20to40 total,
       pctOf d.from40to60 total, pctOf d.gt60 total⟩
      total



/-!
## Theorems
-/

/-- `splitIntoLines.go` always returns at least one line: every separator
branch emits the accumulated line in front of the recursive call, and the
base case emits the accumulator. -/
lemma splitIntoLines_go_ne_nil (acc cs : List Char) :
    splitIntoLines.go acc cs ≠ [] := by
  induction acc, cs using splitIntoLines.go.induct <;>
    simp_all [splitIntoLines.go]

/-- `splitIntoLines` never returns zero lines (JS `String.prototype.split`
with a separator that cannot match the empty string always yields at
least one piece). -/
lemma splitIntoLines_ne_nil (cs : List Char) : splitIntoLines cs ≠ [] :=
  splitIntoLines_go_ne_nil [] cs

/-- `parseCSVContent` never throws: the `lines.length === 0` guard is
unreachable. -/
lemma parseCSVContent_never_errors (content : List Char) :
    ∃ recs, parseCSVContent content = Except.ok recs := by
  unfold parseCSVContent
  cases h : splitIntoLines content with
  | nil => exact absurd h (splitIntoLines_ne_nil content)
  | cons hd tl => exact ⟨_, rfl⟩

/-- C3: the claim says empty input content is rejected as a whole with a
fatal error before anything is assembled.  In the code, splitting the
empty string yields one (empty) line, so the `lines.length === 0` guard
that would throw `'CSV file is empty'` never fires: `parseCSVContent("")`
succeeds with zero records (the single empty line becomes a one-empty-
field header and there are no data rows), and in fact no input at all can
make the assembler throw.  The error branch of `parseCSVContent` is dead
code, contradicting its own error message. -/
theorem parseCSVContent_empty_input_ok :
    parseCSVContentS "" = Except.ok [] ∧
    splitIntoLines [] = [[]] ∧
    ∀ content : List Char, ∃ recs, parseCSVContent content = Except.ok recs :=
  ⟨rfl, rfl, parseCSVContent_never_errors⟩

/-- C9: the bucket assignment of the reporter's cascade.  Every integer
age lands in the bucket the claim names, and the six boundary ages
`[19, 20, 39, 40, 60, 61]` bucket to
`["<20", "20-40", "20-40", "40-60", "40-60", ">60"]` — the upper bound of
`"40-60"` is inclusive at exactly 60. -/
theorem bucketOf_boundaries (age : Int) :
    (age < 20 → bucketOf age = "<20") ∧
    (20 ≤ age → age < 40 → bucketOf age = "20-40") ∧
    (40 ≤ age → age ≤ 60 → bucketOf age = "40-60") ∧
    (60 < age → bucketOf age = ">60") ∧
    [(19 : Int), 20, 39, 40, 60, 61].map bucketOf
      = ["<20", "20-40", "20-40", "40-60", "40-60", ">60"] := by
  refine ⟨?_, ?_, ?_, ?_, by decide⟩ <;>
    (intros; unfold bucketOf; split_ifs <;> first | rfl | omega)

/-- Witness for `bucketOf_boundaries` at concrete ages, one per bucket. -/
theorem bucketOf_boundaries_witness :
    bucketOf 19 = "<20" ∧ bucketOf 20 = "20-40" ∧
    bucketOf 60 = "40-60" ∧ bucketOf 61 = ">60" :=
  ⟨(bucketOf_boundaries 19).1 (by decide),
   (bucketOf_boundaries 20).2.1 (by decide) (by decide),
   (bucketOf_boundaries 60).2.2.1 (by decide) (by decide),
   (bucketOf_boundaries 61).2.2.2.1 (by decide)⟩

/-- C10: on an empty user list `calculate` returns the bare zeroed bucket
object directly (the early `if (total === 0)` return), while every
non-empty input produces the `{counts, percentages, total}` wrapper: the
public reporter's result shape differs between the two cases. -/
theorem calculate_empty_shape_differs :
    calculate [] = CalcResult.flatBuckets ⟨0, 0, 0, 0⟩ ∧
    ∀ (u : String) (us : List String),
      ∃ b p t, calculate (u :: us) = CalcResult.report b p t := by
  refine ⟨rfl, fun u us => ?_⟩
  unfold calculate
  simp only [List.length_cons]
  rw [if_neg (by omega)]
  exact ⟨_, _, _, rfl⟩

/-- Sum of the four bucket counters. -/
def bucketSum (b : Buckets) : Nat :=
  b.lt20 + b.from20to40 + b.from40to60 + b.gt60

/-- Number of users whose age attribute `parseInt`s to an integer. -/
def parseableCount (users : List String) : Nat :=
  (users.filterMap jsParseInt).length

/-- Incrementing any bucket raises the bucket sum by one. -/
lemma bucketSum_incrBucket (b : Buckets) (key : String) :
    bucketSum (incrBucket b key) = bucketSum b + 1 := by
  unfold incrBucket bucketSum
  split_ifs <;> simp <;> omega

/-- The tally loop counts exactly the parseable ages: each parseable entry
raises some bucket by one, each unparseable entry is skipped. -/
lemma bucketSum_foldl_tallyStep (users : List String) :
    ∀ b : Buckets,
      bucketSum (users.foldl tallyStep b) = bucketSum b + parseableCount users := by
  induction users with
  | nil => intro b; simp [parseableCount]
  | cons u us ih =>
    intro b
    unfold parseableCount at *
    cases h : jsParseInt u with
    | none => simp [tallyStep, h, ih]
    | some age => simp [tallyStep, h, ih, bucketSum_incrBucket]; omega

/-- Counterexample to C4 as stated: the claim says entries whose age does
not parse are not counted in `total`.  On the single-user input
`["abc"]` no age parses, yet `total` is `1`, not `0`: `total` is
`users.length`, computed before the parse-and-skip loop. -/
theorem calculate_unparseable_counted_cex :
    calculate ["abc"] = CalcResult.report ⟨0, 0, 0, 0⟩ ⟨0, 0, 0, 0⟩ 1 ∧
    parseableCount ["abc"] = 0 := by
  constructor
  · have h : tally ["abc"] = ⟨0, 0, 0, 0⟩ := by decide
    simp [calculate, h, pctOf]
  · decide

/-- C4 amended: unparseable ages are skipped by the tally loop (the sum of
the four bucket counts is the number of parseable entries), but `total`
is the full input length, unparseable entries included, and that same
`total` is the denominator of every percentage — so the percentages are
over all records, not only the parseable ones. -/
theorem calculate_total_denominator (u : String) (us : List String) :
    calculate (u :: us) =
      CalcResult.report (tally (u :: us))
        ⟨pctOf (tally (u :: us)).lt20 (u :: us).length,
         pctOf (tally (u :: us)).from20to40 (u :: us).length,
         pctOf (tally (u :: us)).from40to60 (u :: us).length,
         pctOf (tally (u :: us)).gt60 (u :: us).length⟩
        (u :: us).length ∧
    bucketSum (tally (u :: us)) = parseableCount (u :: us) := by
  constructor
  · unfold calculate
    rw [if_neg (by simp)]
  · have h := bucketSum_foldl_tallyStep (u :: us) ⟨0, 0, 0, 0⟩
    simpa [tally, bucketSum] using h

/-- C5: the flat record
`{"name.firstName":"John","name.lastName":"Doe","age":"25","address.city":"NYC"}`
expands and separates to
`{name:"John Doe", age:25, address:{city:"NYC"}, additional_info:null}`;
and for the whole family of such four-key records, `name` is the trimmed
space-joined concatenation of the two name parts, `age` is the integer
parse of the flat `age` field with unparseable values coercing to `0`,
`address` is the address subtree, and `additional_info` is `null`
because no other top-level key remains. -/
theorem dotpath_to_persistable_user :
    separateMandatoryFields
      (buildNestedObject
        [("name.firstName", "John"), ("name.lastName", "Doe"),
         ("age", "25"), ("address.city", "NYC")]) =
      { name := "John Doe", age := 25,
        address := some (.obj [("city", .str "NYC")]),
        additional_info := none } ∧
    ∀ fn ln ageStr city : String,
      separateMandatoryFields
        (buildNestedObject
          [("name.firstName", fn), ("name.lastName", ln),
           ("age", ageStr), ("address.city", city)]) =
        { name := jsTrimS (fn ++ " " ++ ln),
          age := (jsParseInt ageStr).getD 0,
          address := some (.obj [("city", .str city)]),
          additional_info := none } := by
  refine ⟨rfl, fun fn ln ageStr city => ?_⟩
  have hb : buildNestedObject
      [("name.firstName", fn), ("name.lastName", ln),
       ("age", ageStr), ("address.city", city)] =
      [("name", .obj [("firstName", .str fn), ("lastName", .str ln)]),
       ("age", .str ageStr),
       ("address", .obj [("city", .str city)])] := rfl
  rw [hb]
  rcases eq_or_ne fn "" with hfn | hfn <;> rcases eq_or_ne ln "" with hln | hln <;>
    cases hp : jsParseInt ageStr <;>
      simp [separateMandatoryFields, getNameField, getAge, getAddress,
            objGet, jsFalsy, jsToString, hfn, hln, hp]

/-- C8: a dot-path `a.b.c` assigns `{a: {b: {c: value}}}` (both at the
segment level for arbitrary segment names and for the literal path
`"a.b.c"`); when the walk meets a key holding a non-mapping value it
silently restarts from a fresh empty mapping; and of two flat keys
disagreeing about whether a segment is a leaf or a mapping, the
later-processed key wins, in the flat record's iteration order. -/
theorem setNestedProperty_last_write_wins :
    (∀ a b c value : String,
      setNestedSegs [] [a, b, c] value
        = [(a, .obj [(b, .obj [(c, .str value)])])]) ∧
    setNestedProperty [] "a.b.c" "x"
      = [("a", .obj [("b", .obj [("c", .str "x")])])] ∧
    (∀ (m : JObj) (k : String) (k2 : String) (ks : List String)
        (value s : String),
      objGet m k = some (.str s) →
      setNestedSegs m (k :: k2 :: ks) value
        = objSet m k (.obj (setNestedSegs [] (k2 :: ks) value))) ∧
    buildNestedObject [("a", "x"), ("a.b", "y")]
      = [("a", .obj [("b", .str "y")])] ∧
    buildNestedObject [("a.b", "y"), ("a", "x")]
      = [("a", .str "x")] := by
  refine ⟨fun a b c value => rfl, rfl, ?_, rfl, rfl⟩
  intro m k k2 ks value s h
  simp [setNestedSegs, h]

/-- Witness for `setNestedProperty_last_write_wins`: with `"a"` previously
bound to the leaf `"x"`, writing along `["a", "b"]` replaces the leaf by
a fresh mapping. -/
theorem setNestedProperty_last_write_wins_witness :
    objGet [("a", JsonVal.str "x")] "a" = some (.str "x") ∧
    setNestedSegs [("a", JsonVal.str "x")] ["a", "b"] "y"
      = objSet [("a", JsonVal.str "x")] "a" (.obj (setNestedSegs [] ["b"] "y")) :=
  ⟨rfl, setNestedProperty_last_write_wins.2.2.1 [("a", .str "x")] "a" "b" [] "y" "x" rfl⟩

/-- The per-row error entries the claim describes: one `{identifier:
user.name, message}` entry per failing row, in row order, with processing
continuing past each failure. -/
def failuresFrom (oracle : Nat → PersistableUser → Option String) :
    Nat → List PersistableUser → List RowError
  | _, [] => []
  | i, user :: rest =>
    match oracle i user with
    | some msg => ⟨user.name, msg⟩ :: failuresFrom oracle (i + 1) rest
    | none => failuresFrom oracle (i + 1) rest

/-- The rows whose individual inserts succeed, in row order. -/
def acceptedFrom (oracle : Nat → PersistableUser → Option String) :
    Nat → List PersistableUser → List PersistableUser
  | _, [] => []
  | i, user :: rest =>
    match oracle i user with
    | some _ => acceptedFrom oracle (i + 1) rest
    | none => user :: acceptedFrom oracle (i + 1) rest

/-- The row-by-row loop computes exactly the accepted rows, the failure
entries, and their counts. -/
lemma batchInsertLoop_eq (oracle : Nat → PersistableUser → Option String)
    (users : List PersistableUser) : ∀ i,
    batchInsertLoop oracle i users =
      ((acceptedFrom oracle i users).length, (failuresFrom oracle i users).length,
       failuresFrom oracle i users, acceptedFrom oracle i users) := by
  induction users with
  | nil => intro i; rfl
  | cons u rest ih =>
    intro i
    cases h : oracle i u <;>
      simp [batchInsertLoop, failuresFrom, acceptedFrom, h, ih (i + 1)]

/-- Accepted and failed rows partition the input. -/
lemma acceptedFrom_add_failuresFrom (oracle : Nat → PersistableUser → Option String)
    (users : List PersistableUser) : ∀ i,
    (acceptedFrom oracle i users).length + (failuresFrom oracle i users).length
      = users.length := by
  induction users with
  | nil => intro i; rfl
  | cons u rest ih =>
    intro i
    cases h : oracle i u <;>
      simp [failuresFrom, acceptedFrom, h] <;> rw [← ih (i + 1)] <;> omega

/-- The ten-record scenario of the claim: ten users, of which exactly the
fourth is rejected by the storage engine. -/
def usersC1 : List PersistableUser :=
  [⟨"u0", 30, none, none⟩, ⟨"u1", 30, none, none⟩, ⟨"u2", 30, none, none⟩,
   ⟨"u3", 30, none, none⟩, ⟨"u4", 30, none, none⟩, ⟨"u5", 30, none, none⟩,
   ⟨"u6", 30, none, none⟩, ⟨"u7", 30, none, none⟩, ⟨"u8", 30, none, none⟩,
   ⟨"u9", 30, none, none⟩]

/-- Engine behaviour for that scenario: the insert attempt at row index 3
violates a column constraint, every other insert succeeds. -/
def oracleC1 : Nat → PersistableUser → Option String :=
  fun i _ => if i = 3 then some "value too long for type character varying" else none

/-- C1: in the transactional row-by-row path, each row failure is caught
locally: it increments `failed`, appends `{identifier: user.name,
message}` to `errors`, and the loop continues inside the same
transaction, which commits at the end (`success: true`, the accepted rows
durable, `inserted + failed = users.length`).  In particular the
ten-record scenario with one rejected row returns `inserted = 9`,
`failed = 1`, and exactly one error entry identifying that row. -/
theorem batchInsert_partial_tolerance :
    (∀ (oracle : Nat → PersistableUser → Option String)
       (users : List PersistableUser),
      (batchInsertUsers oracle users).result = Except.ok
        { success := true
          inserted := (acceptedFrom oracle 0 users).length
          failed := (failuresFrom oracle 0 users).length
          errors := if (failuresFrom oracle 0 users).length > 0
                    then some (failuresFrom oracle 0 users) else none } ∧
      (batchInsertUsers oracle users).committed = acceptedFrom oracle 0 users ∧
      (acceptedFrom oracle 0 users).length + (failuresFrom oracle 0 users).length
        = users.length) ∧
    (batchInsertUsers oracleC1 usersC1).result = Except.ok
      { success := true, inserted := 9, failed := 1,
        errors := some [⟨"u3", "value too long for type character varying"⟩] } ∧
    (batchInsertUsers oracleC1 usersC1).committed.length = 9 := by
  refine ⟨fun oracle users => ?_, rfl, rfl⟩
  refine ⟨?_, ?_, acceptedFrom_add_failuresFrom oracle users 0⟩ <;>
    simp [batchInsertUsers, batchInsertLoop_eq]

/-- Chunking is empty only for empty input. -/
lemma chunksOf1000_eq_nil {α : Type} (l : List α) :
    chunksOf1000 l = [] ↔ l = [] := by
  cases l <;> simp [chunksOf1000]

/-- Concatenating the chunks restores the input batch. -/
lemma chunksOf1000_flatten {α : Type} (l : List α) :
    (chunksOf1000 l).flatten = l := by
  induction l using chunksOf1000.induct with
  | case1 => simp [chunksOf1000]
  | case2 x xs ih =>
    rw [chunksOf1000]
    simpa [List.flatten] using
      (congrArg (List.take 1000 (x :: xs) ++ ·) ih).trans
        (List.take_append_drop 1000 (x :: xs))

/-- Every chunk is non-empty and holds at most 1000 records. -/
lemma chunksOf1000_mem_size {α : Type} (l : List α) (c : List α)
    (hc : c ∈ chunksOf1000 l) : c ≠ [] ∧ c.length ≤ 1000 := by
  induction l using chunksOf1000.induct with
  | case1 => simp [chunksOf1000] at hc
  | case2 x xs ih =>
    rw [chunksOf1000] at hc
    rcases List.mem_cons.mp hc with h | h
    · subst h
      refine ⟨by simp [List.take], ?_⟩
      exact List.length_take_le 1000 (x :: xs)
    · exact ih h

/-- Every chunk but the last holds exactly 1000 records. -/
lemma chunksOf1000_dropLast_size {α : Type} (l : List α) (c : List α)
    (hc : c ∈ (chunksOf1000 l).dropLast) : c.length = 1000 := by
  induction l using chunksOf1000.induct with
  | case1 => simp [chunksOf1000] at hc
  | case2 x xs ih =>
    rw [chunksOf1000] at hc
    by_cases hrest : (x :: xs).drop 1000 = []
    · simp [hrest, chunksOf1000] at hc
    · have hne : chunksOf1000 ((x :: xs).drop 1000) ≠ [] :=
        fun h => hrest ((chunksOf1000_eq_nil _).mp h)
      rw [List.dropLast_cons_of_ne_nil hne] at hc
      rcases List.mem_cons.mp hc with h | h
      · subst h
        have hlen : 1000 ≤ xs.length + 1 := by
          by_contra hlt
          exact hrest (List.drop_eq_nil_of_le (by simp; omega))
        simp [List.length_take]
        omega
      · exact ih h

/-- A successful chunk loop means every chunk's insert succeeded. -/
lemma runChunks_ok_all (oracle : Nat → List PersistableUser → Except String Nat)
    (chunks : List (List PersistableUser)) : ∀ i n,
    runChunks oracle i chunks = .ok n →
    ∀ j (h : j < chunks.length), ∃ m, oracle (i + j) (chunks.get ⟨j, h⟩) = .ok m := by
  induction chunks with
  | nil => intro i n _ j h; simp at h
  | cons c rest ih =>
    intro i n hrun j h
    unfold runChunks at hrun
    cases hc : oracle i c with
    | error e => rw [hc] at hrun; exact absurd hrun (by simp)
    | ok m =>
      rw [hc] at hrun
      cases j with
      | zero => exact ⟨m, by simpa using hc⟩
      | succ j' =>
        cases hrest : runChunks oracle (i + 1) rest with
        | error e => rw [hrest] at hrun; exact absurd hrun (by simp)
        | ok m' =>
          have := ih (i + 1) m' hrest j' (by simpa using h)
          simpa [Nat.add_assoc, Nat.add_comm 1 j'] using this

/-- Whether an `Except` value is a success. -/
def exceptOk {ε α : Type} : Except ε α → Bool
  | .ok _ => true
  | .error _ => false

/-- A successful chunk loop means every per-chunk insert (indexed from
`i`) succeeded. -/
lemma runChunks_ok_enumFrom (oracle : Nat → List PersistableUser → Except String Nat)
    (chunks : List (List PersistableUser)) : ∀ i n,
    runChunks oracle i chunks = .ok n →
    (List.enumFrom i chunks).all (fun p => exceptOk (oracle p.1 p.2)) = true := by
  induction chunks with
  | nil => intro i n _; rfl
  | cons c rest ih =>
    intro i n hrun
    unfold runChunks at hrun
    cases hc : oracle i c with
    | error e => rw [hc] at hrun; exact absurd hrun (by simp)
    | ok m =>
      rw [hc] at hrun
      cases hrest : runChunks oracle (i + 1) rest with
      | error e => rw [hrest] at hrun; exact absurd hrun (by simp)
      | ok m' =>
        rw [List.enumFrom_cons]
        simp only [List.all_cons, hc, exceptOk, Bool.true_and]
        exact ih (i + 1) m' hrest

/-- Peeling one chunk off a batch that starts with at least 1000 copies of
the same record. -/
lemma chunksOf1000_replicate_step {α : Type} (g : α) (m : Nat) (rest : List α)
    (hm : 1000 ≤ m) :
    chunksOf1000 (List.replicate m g ++ rest)
      = List.replicate 1000 g :: chunksOf1000 (List.replicate (m - 1000) g ++ rest) := by
  obtain ⟨m', rfl⟩ : ∃ m', m = m' + 1 := ⟨m - 1, by omega⟩
  rw [List.replicate_succ, List.cons_append, chunksOf1000]
  rw [← List.cons_append, ← List.replicate_succ]
  have hlen : (1000 : Nat) ≤ (List.replicate (m' + 1) g).length := by
    simpa using hm
  rw [List.take_append_of_le_length hlen, List.drop_append_of_le_length hlen,
      List.take_replicate, List.drop_replicate]
  have h1000 : 1000 ⊓ (m' + 1) = 1000 := by omega
  rw [h1000]

/-- A batch of length at most 1000 is a single chunk. -/
lemma chunksOf1000_single {α : Type} (x : α) (xs : List α)
    (h : (x :: xs).length ≤ 1000) :
    chunksOf1000 (x :: xs) = [x :: xs] := by
  rw [chunksOf1000, List.take_of_length_le h, List.drop_eq_nil_of_le h]
  rw [(chunksOf1000_eq_nil ([] : List α)).mpr rfl]

/-- The 6000-record scenario of the claim: records 1–5000 and 5002–6000
are well-formed, the 5001st carries a value the storage engine rejects. -/
def goodUser : PersistableUser := ⟨"good", 30, none, none⟩

/-- The malformed 5001st record. -/
def badUser : PersistableUser := ⟨"bad", -1, none, none⟩

/-- 6000 records with the malformed one at position 5001 (0-based 5000). -/
def usersC2 : List PersistableUser :=
  List.replicate 5000 goodUser ++ badUser :: List.replicate 999 goodUser

/-- Engine behaviour for that scenario: a chunk whose records all carry a
non-negative age inserts cleanly (reporting one row per record), a chunk
containing the malformed record raises. -/
def oracleC2 : Nat → List PersistableUser → Except String Nat :=
  fun _ chunk =>
    if chunk.all (fun u => decide (0 ≤ u.age)) then .ok chunk.length
    else .error "invalid input syntax for type integer"

/-- The chunk decomposition of the 6000-record batch: five full chunks of
well-formed records, then the chunk containing the malformed one. -/
lemma chunksOf1000_usersC2 :
    chunksOf1000 usersC2 =
      [List.replicate 1000 goodUser, List.replicate 1000 goodUser,
       List.replicate 1000 goodUser, List.replicate 1000 goodUser,
       List.replicate 1000 goodUser,
       badUser :: List.replicate 999 goodUser] := by
  unfold usersC2
  rw [chunksOf1000_replicate_step _ _ _ (by omega)]
  rw [chunksOf1000_replicate_step _ _ _ (by omega)]
  rw [chunksOf1000_replicate_step _ _ _ (by omega)]
  rw [chunksOf1000_replicate_step _ _ _ (by omega)]
  rw [chunksOf1000_replicate_step _ _ _ (by omega)]
  norm_num
  rw [chunksOf1000_single _ _
      (by simp only [List.length_cons, List.length_replicate]; omega)]

/-- The chunk loop fails on the 6000-record scenario: the first five
chunks succeed, the sixth raises. -/
lemma runChunks_usersC2 :
    runChunks oracleC2 0 (chunksOf1000 usersC2)
      = .error "invalid input syntax for type integer" := by
  rw [chunksOf1000_usersC2]
  have hgood : ∀ i, oracleC2 i (List.replicate 1000 goodUser) = .ok 1000 := by
    intro i
    unfold oracleC2
    rw [List.all_replicate, List.length_replicate]
    norm_num [goodUser]
  have hbad : ∀ i, oracleC2 i (badUser :: List.replicate 999 goodUser)
      = .error "invalid input syntax for type integer" := by
    intro i
    unfold oracleC2
    rw [List.all_cons]
    norm_num [badUser]
  simp only [runChunks, hgood, hbad]


/-- A failing chunk loop rolls the whole call back: the call throws and
commits nothing. -/
lemma optimizedBatchInsert_error (oracle : Nat → List PersistableUser → Except String Nat)
    (users : List PersistableUser) (e : String)
    (hr : runChunks oracle 0 (chunksOf1000 users) = .error e) :
    optimizedBatchInsert oracle users =
      ⟨.error ("Optimized batch insert failed: " ++ e), []⟩ := by
  unfold optimizedBatchInsert
  rw [hr]

/-- A successful chunk loop commits every chunk's rows and reports the
accumulated count. -/
lemma optimizedBatchInsert_ok (oracle : Nat → List PersistableUser → Except String Nat)
    (users : List PersistableUser) (n : Nat)
    (hr : runChunks oracle 0 (chunksOf1000 users) = .ok n) :
    optimizedBatchInsert oracle users =
      ⟨.ok { success := true, inserted := n, failed := 0, errors := none },
       (chunksOf1000 users).flatten⟩ := by
  unfold optimizedBatchInsert
  rw [hr]

/-- C2: the bulk columnar path processes the input in fixed-size chunks of
1000 (the chunks concatenate back to the input, every chunk is non-empty
with at most 1000 records, and every chunk but the last has exactly
1000), all inside one transaction: either every per-chunk insert
succeeds, or the call fails as a whole — the result is an error, zero
rows are committed, and there is no partial errors list; on success the
result carries the aggregate inserted count with `failed = 0` and
`errors = null` and all rows committed.  In particular the 6000-record
scenario whose 5001st record is malformed commits zero rows and fails as
a whole. -/
theorem optimizedBatchInsert_bulk_atomicity :
    (∀ users : List PersistableUser,
      (chunksOf1000 users).flatten = users ∧
      (chunksOf1000 users).all
        (fun c => !c.isEmpty && decide (c.length ≤ 1000)) = true ∧
      (chunksOf1000 users).dropLast.all
        (fun c => decide (c.length = 1000)) = true) ∧
    (∀ (oracle : Nat → List PersistableUser → Except String Nat)
       (users : List PersistableUser),
      (List.enumFrom 0 (chunksOf1000 users)).all
          (fun p => exceptOk (oracle p.1 p.2)) = true ∨
      (∃ e, (optimizedBatchInsert oracle users).result = Except.error e ∧
            (optimizedBatchInsert oracle users).committed = [])) ∧
    (∀ (oracle : Nat → List PersistableUser → Except String Nat)
       (users : List PersistableUser),
      (∃ e, (optimizedBatchInsert oracle users).result = Except.error e ∧
            (optimizedBatchInsert oracle users).committed = []) ∨
      (∃ n, (optimizedBatchInsert oracle users).result = Except.ok
              { success := true, inserted := n, failed := 0, errors := none } ∧
            (optimizedBatchInsert oracle users).committed = users)) ∧
    (optimizedBatchInsert oracleC2 usersC2).committed = [] ∧
    (∃ e, (optimizedBatchInsert oracleC2 usersC2).result = Except.error e) := by
  refine ⟨fun users => ⟨chunksOf1000_flatten users, ?_, ?_⟩, ?_, ?_, ?_, ?_⟩
  · rw [List.all_eq_true]
    intro c hc
    obtain ⟨h1, h2⟩ := chunksOf1000_mem_size users c hc
    simp [h1, h2, List.isEmpty_iff]
  · rw [List.all_eq_true]
    intro c hc
    simp [chunksOf1000_dropLast_size users c hc]
  · intro oracle users
    cases hr : runChunks oracle 0 (chunksOf1000 users) with
    | ok n => exact Or.inl (runChunks_ok_enumFrom oracle (chunksOf1000 users) 0 n hr)
    | error e =>
      rw [optimizedBatchInsert_error oracle users e hr]
      exact Or.inr ⟨_, rfl, rfl⟩
  · intro oracle users
    cases hr : runChunks oracle 0 (chunksOf1000 users) with
    | error e =>
      rw [optimizedBatchInsert_error oracle users e hr]
      exact Or.inl ⟨_, rfl, rfl⟩
    | ok n =>
      rw [optimizedBatchInsert_ok oracle users n hr]
      exact Or.inr ⟨n, rfl, chunksOf1000_flatten users⟩
  · rw [optimizedBatchInsert_error oracleC2 usersC2 _ runChunks_usersC2]
  · rw [optimizedBatchInsert_error oracleC2 usersC2 _ runChunks_usersC2]
    exact ⟨_, rfl⟩

/-- `fields.join(',')`: the comma-joined concatenation of a field
sequence. -/
def joinComma : List (List Char) → List Char
  | [] => []
  | [f] => f
  | f :: rest => f ++ ',' :: joinComma rest

/-- A character a well-formed field may contain: neither the delimiter nor
the quote character. -/
def cleanChar (c : Char) : Prop := c ≠ ',' ∧ c ≠ '"'

/-- A character that is neither `"` nor `,` always takes the
accumulate branch of the scanner. -/
lemma parseLineAux_cons_other (c : Char) (rest acc : List Char) (inside : Bool)
    (h1 : c ≠ ',') (h2 : c ≠ '"') :
    parseLineAux (c :: rest) acc inside = parseLineAux rest (c :: acc) inside := by
  rw [parseLineAux.eq_def]
  split <;> simp_all

/-- Scanning a run of clean characters outside quotes just accumulates
them. -/
lemma parseLineAux_clean_run (cs : List Char) :
    ∀ (rest acc : List Char), (∀ c ∈ cs, cleanChar c) →
    parseLineAux (cs ++ rest) acc false = parseLineAux rest (cs.reverse ++ acc) false := by
  induction cs with
  | nil => intro rest acc _; simp
  | cons c cs' ih =>
    intro rest acc hclean
    obtain ⟨hc, hcs'⟩ := List.forall_mem_cons.mp hclean
    rw [List.cons_append, parseLineAux_cons_other c _ _ _ hc.1 hc.2,
        ih rest (c :: acc) hcs']
    simp

/-- A `,` outside quotes closes the current field. -/
lemma parseLineAux_comma (rest acc : List Char) :
    parseLineAux (',' :: rest) acc false
      = acc.reverse :: parseLineAux rest [] false := rfl

/-- C6: tokenizer round-trip on well-formed rows.  For every non-empty
sequence of fields containing neither the delimiter nor the quote
character, tokenizing the comma-joined line reproduces the fields
exactly. -/
theorem parseLine_round_trip (fields : List (List Char))
    (hne : fields ≠ [])
    (hclean : ∀ f ∈ fields, ∀ c ∈ f, c ≠ ',' ∧ c ≠ '"') :
    parseLine (joinComma fields) = fields := by
  induction fields with
  | nil => exact absurd rfl hne
  | cons f rest ih =>
    obtain ⟨hf, hrest⟩ := List.forall_mem_cons.mp hclean
    cases rest with
    | nil =>
      show parseLineAux (joinComma [f]) [] false = [f]
      have hpre := parseLineAux_clean_run f [] [] hf
      simp only [List.append_nil] at hpre
      simp [joinComma, hpre, parseLineAux]
    | cons g rest' =>
      show parseLineAux (joinComma (f :: g :: rest')) [] false = f :: g :: rest'
      rw [joinComma, parseLineAux_clean_run f (',' :: joinComma (g :: rest')) [] hf,
          parseLineAux_comma]
      simp only [List.append_nil, List.reverse_reverse]
      exact congrArg (f :: ·) (ih (List.cons_ne_nil g rest') hrest)
      exact fun h => absurd h (List.cons_ne_nil g rest')

/-- Witness for `parseLine_round_trip`: the two-field row `ab,cd`. -/
theorem parseLine_round_trip_witness :
    parseLine (joinComma ["ab".data, "cd".data]) = ["ab".data, "cd".data] :=
  parseLine_round_trip ["ab".data, "cd".data] (by decide) (by decide)

/-- Reading back an assignment: the assigned key returns the new value,
any other key is untouched. -/
lemma objGet_objSet {α β : Type} [DecidableEq α]
    (r : List (α × β)) (k key : α) (v : β) :
    objGet (objSet r k v) key = if k = key then some v else objGet r key := by
  induction r with
  | nil => simp [objSet, objGet]
  | cons p rest ih =>
    obtain ⟨k0, w⟩ := p
    by_cases h0 : k0 = k
    · subst h0
      simp only [objSet, if_pos rfl, objGet]
      by_cases h1 : k0 = key <;> simp [h1]
    · simp only [objSet, if_neg h0, objGet, ih]
      by_cases h1 : k0 = key <;> by_cases h2 : k = key <;>
        simp_all

/-- Folding assignments whose keys avoid `key` leaves `key`'s binding
unchanged. -/
lemma objGet_foldl_notmem {α β : Type} [DecidableEq α]
    (ps : List (α × β)) : ∀ (r : List (α × β)) (key : α),
    key ∉ ps.map Prod.fst →
    objGet (ps.foldl (fun m p => objSet m p.1 p.2) r) key = objGet r key := by
  induction ps with
  | nil => intro r key _; rfl
  | cons p rest ih =>
    intro r key hkey
    simp only [List.map_cons, List.mem_cons] at hkey
    push_neg at hkey
    simp only [List.foldl_cons]
    rw [ih _ key hkey.2, objGet_objSet, if_neg (Ne.symm hkey.1)]

/-- Folding assignments with pairwise-distinct keys: each key reads back
its own value. -/
lemma objGet_foldl_mem {α β : Type} [DecidableEq α]
    (ps : List (α × β)) : ∀ (r : List (α × β)) (k : α) (v : β),
    (k, v) ∈ ps → (ps.map Prod.fst).Nodup →
    objGet (ps.foldl (fun m p => objSet m p.1 p.2) r) k = some v := by
  induction ps with
  | nil => intro r k v hmem _; simp at hmem
  | cons p rest ih =>
    intro r k v hmem hnd
    simp only [List.map_cons, List.nodup_cons] at hnd
    rcases List.mem_cons.mp hmem with h | h
    · subst h
      simp only [List.foldl_cons]
      rw [objGet_foldl_notmem rest _ k hnd.1, objGet_objSet, if_pos rfl]
    · simp only [List.foldl_cons]
      exact ih _ k v h hnd.2

/-- The assembled record zips trimmed header field `i` to trimmed value
field `i`: reading the record at the trimmed `i`-th header name returns
the trimmed `i`-th value (for pairwise-distinct trimmed header names). -/
lemma objGet_buildRecord (headers values : List (List Char))
    (hlen : values.length = headers.length) (i : Nat) (hi : i < values.length)
    (hnd : (headers.map trimL).Nodup) :
    objGet (buildRecord headers values) (trimL (headers.get ⟨i, hlen ▸ hi⟩))
      = some (trimL (values.get ⟨i, hi⟩)) := by
  have hfold : buildRecord headers values =
      ((headers.zip values).map (fun hv => (trimL hv.1, trimL hv.2))).foldl
        (fun m p => objSet m p.1 p.2) [] := by
    rw [List.foldl_map]
    rfl
  rw [hfold]
  set ps := (headers.zip values).map (fun hv => (trimL hv.1, trimL hv.2)) with hps
  have hizip : i < (headers.zip values).length := by
    simp [List.length_zip]
    omega
  have hmem : (trimL (headers.get ⟨i, hlen ▸ hi⟩), trimL (values.get ⟨i, hi⟩)) ∈ ps := by
    have : ps.get ⟨i, by simpa [hps] using hizip⟩
        = (trimL (headers.get ⟨i, hlen ▸ hi⟩), trimL (values.get ⟨i, hi⟩)) := by
      simp [hps, List.get_eq_getElem, List.getElem_map, List.getElem_zip]
    exact this ▸ List.get_mem ps i (by simpa [hps] using hizip)
  have hkeys : ps.map Prod.fst = headers.map trimL := by
    rw [hps, List.map_map]
    have : (headers.zip values).map (Prod.fst ∘ fun hv => (trimL hv.1, trimL hv.2))
        = (headers.zip values).map (trimL ∘ Prod.fst) := rfl
    rw [this, ← List.map_map, List.map_fst_zip headers values (by omega)]
  exact objGet_foldl_mem ps [] _ _ hmem (hkeys ▸ hnd)

/-- A non-empty row whose field count differs from the header's is
skipped: it emits no record and processing continues. -/
lemma processRows_skip (headers : List (List Char)) (line : List Char)
    (rest : List (List Char)) (h1 : trimL line ≠ [])
    (h2 : (parseLine (trimL line)).length ≠ headers.length) :
    processRows headers (line :: rest) = processRows headers rest := by
  rw [processRows]
  rw [if_neg (by simpa using h1)]
  simp [h2]

/-- A non-empty row with the right field count emits its zipped record and
processing continues. -/
lemma processRows_keep (headers : List (List Char)) (line : List Char)
    (rest : List (List Char)) (h1 : trimL line ≠ [])
    (h2 : (parseLine (trimL line)).length = headers.length) :
    processRows headers (line :: rest)
      = buildRecord headers (parseLine (trimL line)) :: processRows headers rest := by
  rw [processRows]
  rw [if_neg (by simpa using h1)]
  simp [h2]

/-- C7: during record assembly, a (non-empty-after-trim) data row whose
tokenized field count differs from the header's is skipped with a
diagnostic and contributes no FlatRecord, and the batch as a whole never
fails; a row whose field count matches emits exactly one FlatRecord that
zips trimmed header field `i` to trimmed value field `i`. -/
theorem assembler_field_count_filter :
    (∀ (headers : List (List Char)) (line : List Char) (rest : List (List Char)),
      trimL line ≠ [] → (parseLine (trimL line)).length ≠ headers.length →
      processRows headers (line :: rest) = processRows headers rest) ∧
    (∀ (headers : List (List Char)) (line : List Char) (rest : List (List Char)),
      trimL line ≠ [] → (parseLine (trimL line)).length = headers.length →
      processRows headers (line :: rest)
        = buildRecord headers (parseLine (trimL line)) :: processRows headers rest) ∧
    (∀ (headers values : List (List Char))
       (hlen : values.length = headers.length) (i : Nat) (hi : i < values.length),
      (headers.map trimL).Nodup →
      objGet (buildRecord headers values) (trimL (headers.get ⟨i, hlen ▸ hi⟩))
        = some (trimL (values.get ⟨i, hi⟩))) ∧
    (∀ content : List Char, ∃ recs, parseCSVContent content = Except.ok recs) :=
  ⟨processRows_skip, processRows_keep,
   fun headers values hlen i hi hnd => objGet_buildRecord headers values hlen i hi hnd,
   parseCSVContent_never_errors⟩

/-- Witness for `assembler_field_count_filter`: header `a,b,c`; the
two-field row `1,2` is skipped, the three-field row `1,2,3` is kept, and
the kept record maps `b` to `2`. -/
theorem assembler_field_count_filter_witness :
    processRows (parseLine "a,b,c".data) ["1,2".data] = [] ∧
    processRows (parseLine "a,b,c".data) ["1,2,3".data]
      = [buildRecord (parseLine "a,b,c".data) (parseLine "1,2,3".data)] ∧
    objGet (buildRecord (parseLine "a,b,c".data) (parseLine "1,2,3".data))
        (trimL ((parseLine "a,b,c".data).get ⟨1, by decide⟩))
      = some (trimL ((parseLine "1,2,3".data).get ⟨1, by decide⟩)) := by
  refine ⟨?_, ?_, ?_⟩
  · rw [assembler_field_count_filter.1 (parseLine "a,b,c".data) "1,2".data []
        (by decide) (by decide)]
    rfl
  · rw [assembler_field_count_filter.2.1 (parseLine "a,b,c".data) "1,2,3".data []
        (by decide) (by decide)]
    rfl
  · exact assembler_field_count_filter.2.2.1 (parseLine "a,b,c".data)
      (parseLine "1,2,3".data) (by decide) 1 (by decide) (by decide)
